import Mathlib

/-!
# boilr: the template package (`pkg/template/template.go`)

A shallow embedding of `Get`, `dirTemplate.BindPrompts`,
`sanitizePathForWindows` and `dirTemplate.Execute`, followed by the
properties established about them.

Conventions of the embedding

* Go maps are association lists; the order of the list is the order in which
  `range` visits the map, so a statement quantified over all lists holds for
  every iteration order.  Keys of one map are pairwise distinct.
* Loop variables are per iteration (the module imports `go-git/v6`, which
  needs a Go toolchain newer than 1.22), so a closure created in a loop body
  captures the value of its own iteration.
* A value provider is a zero-argument Go function that may talk to the
  terminal.  It is a state transformer over the terminal state `τ` whose
  result is either a value or a run-time panic.
* Collaborators that live outside `template.go` (the prompt package, the JSON
  decoder, the operating system, the `text/template` engine) are parameters
  of the definitions that use them.  The description of the template engine
  may leave an input without an answer (`none`); `Execute` then ends as
  `unmodelled`.
-/

namespace Boilr

/-! ## Values held in a `map[string]interface{}` decoded from JSON -/

/-- The dynamic values `encoding/json` stores in an `interface{}`.  Numbers
are carried verbatim and never inspected. -/
inductive Value where
  | null : Value
  | bool (b : Bool) : Value
  | num (n : Int) : Value
  | str (s : String) : Value
  | list (xs : List Value) : Value
  | obj (kvs : List (String × Value)) : Value

/-- A JSON object decoded into `map[string]interface{}`. -/
abbrev Context := List (String × Value)

/-- Scalars of the data model: string, number or boolean. -/
def Value.isScalar : Value → Bool
  | .bool _ => true
  | .num _ => true
  | .str _ => true
  | _ => false

/-! ## Providers and the registry -/

/-- Run-time panics a provider can raise. -/
inductive Panic where
  | indexOutOfRange : Panic
  | typeAssertion : Panic
  | other (msg : String) : Panic
  deriving DecidableEq

/-- Result of calling a `func() interface{}`. -/
inductive Result where
  | val (v : Value) : Result
  | panic (p : Panic) : Result

/-- A `func() interface{}` running against the terminal state `τ`. -/
abbrev Provider (τ : Type) := τ → Result × τ

/-- The registry `template.FuncMap`, keyed by function name. -/
abbrev FuncMap (τ : Type) := String → Option (Provider τ)

/-- The assignment `fm[k] = p`. -/
def FuncMap.set {τ : Type} (fm : FuncMap τ) (k : String) (p : Provider τ) : FuncMap τ :=
  fun n => if n = k then some p else fm n

/-- The registry with no entry. -/
def FuncMap.empty {τ : Type} : FuncMap τ := fun _ => none

/-- The type of `prompt.New`: a field name and a default give a provider. -/
abbrev PromptNew (τ : Type) := String → Value → Provider τ

/-- The template object; `μ` is the type of the metadata record. -/
structure dirTemplate (μ τ : Type) where
  Path : String
  Context : Context
  FuncMap : FuncMap τ
  Metadata : μ
  alignment : String
  ShouldUseDefaults : Bool

/-- The method `UseDefaultValues` switches the template to Defaulted mode. -/
def dirTemplate.UseDefaultValues {μ τ : Type} (t : dirTemplate μ τ) : dirTemplate μ τ :=
  { t with ShouldUseDefaults := true }

/-- The closure registered in Defaulted mode (lines 121-129 and 147-155):
a slice yields its element 0, which panics on an empty slice; any other
value is returned as it is. -/
def defaultProvider {τ : Type} (v : Value) : Provider τ := fun w =>
  match v with
  | .list [] => (.panic .indexOutOfRange, w)
  | .list (x :: _) => (.val x, w)
  | v => (.val v, w)

/-- The closure registered for a sub-key of a group in Interactive mode
(lines 133-139): `advancedMode().(bool)` is evaluated first; when it is true
the prompt `p` answers, otherwise the captured default `v` is returned. -/
def gatedProvider {τ : Type} (advancedMode p : Provider τ) (v : Value) : Provider τ := fun w =>
  match advancedMode w with
  | (.val (.bool true), w1) => p w1
  | (.val (.bool false), w1) => (.val v, w1)
  | (.val _, w1) => (.panic .typeAssertion, w1)
  | (.panic e, w1) => (.panic e, w1)

/-- The inner loop `for k, v2 := range m` (lines 119-141). -/
def bindGroup {τ : Type} (New : PromptNew τ) (useDefaults : Bool) (advancedMode : Provider τ)
    (m : List (String × Value)) (fm : FuncMap τ) : FuncMap τ :=
  m.foldl (fun fm kv =>
    if useDefaults then fm.set kv.1 (defaultProvider kv.2)
    else fm.set kv.1 (gatedProvider advancedMode (New kv.1 kv.2) kv.2)) fm

/-- One iteration of the outer loop `for s, v := range t.Context`. -/
def bindEntry {τ : Type} (New : PromptNew τ) (useDefaults : Bool)
    (fm : FuncMap τ) (sv : String × Value) : FuncMap τ :=
  match sv.2 with
  | .obj m => bindGroup New useDefaults (New sv.1 (.bool false)) m fm
  | v => if useDefaults then fm.set sv.1 (defaultProvider v) else fm.set sv.1 (New sv.1 v)

/-- The method `BindPrompts` (lines 114-160). -/
def dirTemplate.BindPrompts {μ τ : Type} (New : PromptNew τ) (t : dirTemplate μ τ) :
    dirTemplate μ τ :=
  { t with FuncMap := t.Context.foldl (bindEntry New t.ShouldUseDefaults) t.FuncMap }

/-! ### The assignments `BindPrompts` performs, in order -/

/-- Assignments `t.FuncMap[k] = ...` of the inner loop over one group. -/
def groupAssignments {τ : Type} (New : PromptNew τ) (useDefaults : Bool)
    (advancedMode : Provider τ) (m : List (String × Value)) : List (String × Provider τ) :=
  m.map (fun kv =>
    (kv.1, if useDefaults then defaultProvider kv.2
           else gatedProvider advancedMode (New kv.1 kv.2) kv.2))

/-- Assignments of one iteration of the outer loop. -/
def entryAssignments {τ : Type} (New : PromptNew τ) (useDefaults : Bool)
    (sv : String × Value) : List (String × Provider τ) :=
  match sv.2 with
  | .obj m => groupAssignments New useDefaults (New sv.1 (.bool false)) m
  | v => [(sv.1, if useDefaults then defaultProvider v else New sv.1 v)]

/-- All assignments to the registry, in the order `BindPrompts` makes them. -/
def assignments {τ : Type} (New : PromptNew τ) (useDefaults : Bool) :
    Context → List (String × Provider τ)
  | [] => []
  | sv :: rest => entryAssignments New useDefaults sv ++ assignments New useDefaults rest

/-- Performing a list of assignments on a registry. -/
def FuncMap.setAll {τ : Type} (fm : FuncMap τ) (l : List (String × Provider τ)) : FuncMap τ :=
  l.foldl (fun fm kp => fm.set kp.1 kp.2) fm

/-- The variables one top-level entry declares, with their declared values:
the entry itself when it is flat, its sub-keys when it is a group. -/
def entryDeclarations (sv : String × Value) : List (String × Value) :=
  match sv.2 with
  | .obj m => m
  | _ => [sv]

/-- Every declared variable of a Context with its declared value. -/
def declarations : Context → List (String × Value)
  | [] => []
  | sv :: rest => entryDeclarations sv ++ declarations rest

/-- The declared variable names, with multiplicity. -/
def declaredNames (ctx : Context) : List String :=
  (declarations ctx).map Prod.fst

/-- The value the specification gives a declared value in Defaulted mode:
the first element of a list, the value itself otherwise. -/
def firstOrSelf : Value → Value
  | .list (x :: _) => x
  | v => v

/-! ### A terminal for the prompt collaborator -/

/-- State of the terminal: what the user answers to a field, and the prompts
displayed so far. -/
structure Terminal where
  choice : String → Value
  shown : List String

/-- Modelled from the spec: the prompt package (`prompt.New`) is not part of
the sources.  `Prompt(name, defaultValue)` returns a zero-argument function
which presents `name` to the user and returns the chosen value; a boolean
(one-time) question caches its first answer, so later calls do not prompt
again. -/
def promptNew : PromptNew Terminal := fun name dflt w =>
  match dflt with
  | .bool _ =>
    if name ∈ w.shown then (.val (w.choice name), w)
    else (.val (w.choice name), { w with shown := w.shown ++ [name] })
  | _ => (.val (w.choice name), { w with shown := w.shown ++ [name] })

/-! ### Sample inputs -/

/-- A template over the sample terminal with an empty initial registry. -/
def mkTemplate (ctx : Context) (useDefaults : Bool) : dirTemplate Unit Terminal :=
  { Path := "pkg/template", Context := ctx, FuncMap := FuncMap.empty, Metadata := (),
    alignment := "", ShouldUseDefaults := useDefaults }

/-- A user who answers `false` to every question; nothing displayed yet. -/
def quiet : Terminal := { choice := fun _ => .bool false, shown := [] }

/-- The Context `{"x": "a", "g": {"x": "b"}}`, visited flat entry first. -/
def ctxShadow : Context := [("x", .str "a"), ("g", .obj [("x", .str "b")])]

/-- The same Context visited group first. -/
def ctxShadowRev : Context := [("g", .obj [("x", .str "b")]), ("x", .str "a")]

/-- The Context `{"g1": {"x": "a"}, "g2": {"x": "b"}}`, visited `g1` first. -/
def ctxTwoGroups : Context := [("g1", .obj [("x", .str "a")]), ("g2", .obj [("x", .str "b")])]

/-- The same Context visited `g2` first. -/
def ctxTwoGroupsRev : Context := [("g2", .obj [("x", .str "b")]), ("g1", .obj [("x", .str "a")])]

/-- The Context `{"g": {"x": ["a", "b"]}}`. -/
def ctxGroupList : Context := [("g", .obj [("x", .list [.str "a", .str "b"])])]

/-- The Context `{"g": {"x": "d"}}`. -/
def ctxGroup : Context := [("g", .obj [("x", .str "d")])]

/-- The Context `{"name": ["a", "b", "c"]}`. -/
def ctxFlatList : Context := [("name", .list [.str "a", .str "b", .str "c"])]

/-- The Context `{"opts": []}`. -/
def ctxEmptyList : Context := [("opts", .list [])]

/-! ### The claims about `BindPrompts` as they are worded -/

/-- Defaulted-mode resolution as the specification words it: the provider
found under every declared name after `BindPrompts` returns the first element
of a declared list, or the declared value, and leaves the terminal alone. -/
def DefaultedResolves {μ τ : Type} (New : PromptNew τ) (t : dirTemplate μ τ) : Prop :=
  ∀ n v, (n, v) ∈ declarations t.Context →
    (v.isScalar = true ∨ ∃ x xs, v = Value.list (x :: xs)) →
    ∃ p, (t.BindPrompts New).FuncMap n = some p ∧ ∀ w, p w = (Result.val (firstOrSelf v), w)

/-- Group gating as the specification words it: for every group `g` and
sub-variable `x` with scalar default `d`, the provider found under `x`
consults the toggle of `g`, returns `d` when it answers false and the result
of the prompt for `x` when it answers true. -/
def GroupGating {μ τ : Type} (New : PromptNew τ) (t : dirTemplate μ τ) : Prop :=
  ∀ g m x d, (g, Value.obj m) ∈ t.Context → (x, d) ∈ m → d.isScalar = true →
    ∃ p, (t.BindPrompts New).FuncMap x = some p ∧
      ∀ w w1,
        (New g (.bool false) w = (Result.val (.bool false), w1) → p w = (Result.val d, w1)) ∧
        (New g (.bool false) w = (Result.val (.bool true), w1) → p w = New x d w1)

/-- The Context `{"x": [], "g": {"x": "b"}}`, visited flat entry first. -/
def ctxEmptyShadow : Context := [("x", .list []), ("g", .obj [("x", .str "b")])]

/-- The failure on an empty list as the specification words it: for every
variable declared with an empty list, the provider found under its name after
`BindPrompts` aborts with an index-out-of-range panic. -/
def EmptyListPanics {μ τ : Type} (New : PromptNew τ) (t : dirTemplate μ τ) : Prop :=
  ∀ n, (n, Value.list []) ∈ declarations t.Context →
    ∃ p, (t.BindPrompts New).FuncMap n = some p ∧
      ∀ w, p w = (Result.panic Panic.indexOutOfRange, w)

/-! ## Paths -/

/-- The Go call `strings.Split(s, sep)` for a one-character separator. -/
def splitOn (sep : Char) : List Char → List (List Char)
  | [] => [[]]
  | c :: cs =>
    if c = sep then [] :: splitOn sep cs
    else
      match splitOn sep cs with
      | [] => [[c]]
      | seg :: segs => (c :: seg) :: segs

/-- The constant `filepath.Separator` of the host. -/
def Separator (goos : String) : Char :=
  if goos = "windows" then '\\' else '/'

/-- The string `invalidChars` of line 172, character by character. -/
def invalidChars : List Char := ['<', '>', ':', '"', '|', ' ', '?', '*', '{', '}']

/-- The forbidden characters the comments of lines 163 and 169 document for
file names (the separators aside): `< > : " | ? * { }`. -/
def documentedForbidden : List Char := ['<', '>', ':', '"', '|', '?', '*', '{', '}']

/-- The call `strings.Map` of lines 177-182 on one segment. -/
def replaceInvalid (part : List Char) : List Char :=
  part.map (fun r => if r ∈ invalidChars then '_' else r)

/-- The slice `parts` after the loop of lines 176-184. -/
def sanitizedParts (goos : String) (path : String) : List String :=
  (splitOn (Separator goos) path.data).map (fun part => String.mk (replaceInvalid part))

/-- The function `sanitizePathForWindows` (lines 164-187); `goos` is `runtime.GOOS` and
`join` is `filepath.Join` of the host. -/
def sanitizePathForWindows (goos : String) (join : List String → String)
    (path : String) : String :=
  if goos ≠ "windows" then path
  else join (sanitizedParts goos path)

/-- The function the specification describes for a Windows host: each
documented forbidden character becomes an underscore, every other character
stays. -/
def replaceForbidden (path : String) : String :=
  String.mk (path.data.map (fun c => if c ∈ documentedForbidden then '_' else c))

/-- One step of lexical cleaning: `stack` holds the kept elements, last
first. -/
def cleanStep (rooted : Bool) (stack : List (List Char)) (el : List Char) :
    List (List Char) :=
  if el = [] ∨ el = ['.'] then stack
  else if el = ['.', '.'] then
    match stack with
    | [] => if rooted then [] else [el]
    | top :: below => if top = ['.', '.'] then el :: stack else below
  else el :: stack

/-- Elements of a path, split at every character `isSep` accepts. -/
def pathElements (isSep : Char → Bool) : List Char → List (List Char)
  | [] => [[]]
  | c :: cs =>
    if isSep c then [] :: pathElements isSep cs
    else
      match pathElements isSep cs with
      | [] => [[c]]
      | seg :: segs => (c :: seg) :: segs

/-- Lexical `filepath.Clean` for a path without volume name: empty and `.`
elements are dropped, `..` removes the element before it, the separators
become `sep`, and the empty result is `.`. -/
def cleanPath (isSep : Char → Bool) (sep : Char) (path : List Char) : List Char :=
  match path with
  | [] => ['.']
  | c :: _ =>
    let rooted := isSep c
    let kept := ((pathElements isSep path).foldl (cleanStep rooted) []).reverse
    let body := [sep].intercalate kept
    if rooted then sep :: body
    else if body = [] then ['.'] else body

/-- The library function `filepath.Join`: the non-empty elements joined by the
separator and cleaned; the empty string when there is none. -/
def joinWith (isSep : Char → Bool) (sep : Char) (elems : List String) : String :=
  match (elems.filter (fun el => el ≠ "")).map String.data with
  | [] => ""
  | parts => String.mk (cleanPath isSep sep ([sep].intercalate parts))

/-- The library function `filepath.Join` on Windows, for paths without volume
name. -/
def winJoin : List String → String :=
  joinWith (fun c => c = '\\' ∨ c = '/') '\\'

/-- The library function `filepath.Join` on Unix. -/
def unixJoin : List String → String :=
  joinWith (fun c => c = '/') '/'

/-- The call `strings.ReplaceAll(oldName, "\\", "/")` of line 216. -/
def toSlash (name : String) : String :=
  String.mk (name.data.map (fun c => if c = '\\' then '/' else c))

/-! ## Errors -/

/-- Go `error` values, as far as the code tells them apart: those accepted by
`os.IsExist`, those accepted by `os.IsNotExist`, and all others. -/
inductive Error where
  | exist : Error
  | notExist : Error
  | other (msg : String) : Error
  deriving DecidableEq

/-- The predicate `os.IsExist`. -/
def Error.isExist : Error → Bool
  | .exist => true
  | _ => false

/-- The predicate `os.IsNotExist`. -/
def Error.isNotExist : Error → Bool
  | .notExist => true
  | _ => false

/-! ## `Get` -/

/-- The constant `boilr.ContextFileName`. -/
def ContextFileName : String := "project.json"

/-- The constant `boilr.TemplateDirName`. -/
def TemplateDirName : String := "template"

/-- The constant `boilr.TemplateMetadataName`. -/
def TemplateMetadataName : String := "__metadata.json"

/-- What `Get` calls outside `template.go`.  `readFile` stands for opening a
file and reading all of it (`os.Open` with `io.ReadAll`, or `os.ReadFile`);
`fileExists` is `osutil.FileExists`; the two decoders are `json.Unmarshal`
into a `map[string]interface{}` and into a `Metadata`; `emptyMetadata` is
`Metadata{}` and `funcMap` the package variable `FuncMap`. -/
structure GetEnv (μ τ : Type) where
  abs : String → Except Error String
  join : List String → String
  readFile : String → Except Error String
  fileExists : String → Except Error Bool
  decodeContext : String → Except Error Context
  decodeMetadata : String → Except Error μ
  emptyMetadata : μ
  funcMap : FuncMap τ

/-- The first function literal of `Get` (lines 45-67): a missing file gives
the nil map and no error. -/
def loadContext {μ τ : Type} (env : GetEnv μ τ) (fname : String) : Context × Option Error :=
  match env.readFile fname with
  | .error err => if err.isNotExist then ([], none) else ([], some err)
  | .ok buf =>
    match env.decodeContext buf with
    | .error err => ([], some err)
    | .ok metadata => (metadata, none)

/-- The second function literal of `Get` (lines 74-90). -/
def loadMetadata {μ τ : Type} (env : GetEnv μ τ) (metadataExists : Bool) (fname : String) :
    μ × Option Error :=
  if !metadataExists then (env.emptyMetadata, none)
  else
    match env.readFile fname with
    | .error err => (env.emptyMetadata, some err)
    | .ok b =>
      match env.decodeMetadata b with
      | .error err => (env.emptyMetadata, some err)
      | .ok m => (m, none)

/-- The function `Get` (lines 38-98).  A Go result `(Interface, error)` is a pair of
options.  The variable `err` assigned with the result of the context literal
is assigned again by `osutil.FileExists` and by the metadata literal before
it is read. -/
def Get {μ τ : Type} (env : GetEnv μ τ) (path : String) :
    Option (dirTemplate μ τ) × Option Error :=
  match env.abs path with
  | .error err => (none, some err)
  | .ok absPath =>
    let ctxt := (loadContext env (env.join [absPath, ContextFileName])).1
    match env.fileExists (env.join [absPath, TemplateMetadataName]) with
    | .error err => (none, some err)
    | .ok metadataExists =>
      let md := loadMetadata env metadataExists (env.join [absPath, TemplateMetadataName])
      (some { Path := env.join [absPath, TemplateDirName], Context := ctxt,
              FuncMap := env.funcMap, Metadata := md.1, alignment := "",
              ShouldUseDefaults := false },
       md.2)

/-- A package directory on a Unix host, given by the content of its files;
the decoders accept the empty object only, which is all the examples need. -/
def packageEnv (files : String → Option String) : GetEnv Unit Terminal :=
  { abs := fun path => .ok path
    join := unixJoin
    readFile := fun fname =>
      match files fname with
      | some buf => .ok buf
      | none => .error .notExist
    fileExists := fun fname => .ok (files fname).isSome
    decodeContext := fun buf =>
      if buf = "\x7b\x7d" then .ok [] else .error (.other "unexpected end of JSON input")
    decodeMetadata := fun buf =>
      if buf = "\x7b\x7d" then .ok () else .error (.other "unexpected end of JSON input")
    emptyMetadata := ()
    funcMap := FuncMap.empty }

/-- A package whose `project.json` is the truncated text `{"Name": ` and
which has no `__metadata.json`. -/
def brokenContextPackage : String → Option String := fun fname =>
  if fname = "/pkg/project.json" then some "\x7b\"Name\": " else none

/-- A package whose `__metadata.json` is truncated and which has no
`project.json`. -/
def brokenMetadataPackage : String → Option String := fun fname =>
  if fname = "/pkg/__metadata.json" then some "\x7b\"Tag\": " else none

/-! ## `Execute` -/

/-- How `Execute`, or one call of the walk function, ends: `return nil`,
`return err`, a panic carrying the error given to `template.Must`, or no
answer, when the description of the template engine at hand does not cover
the text it is given. -/
inductive Outcome where
  | done : Outcome
  | failed (err : Error) : Outcome
  | panicked (err : Error) : Outcome
  | unmodelled : Outcome
  deriving DecidableEq

/-- The operating-system calls of `Execute` over a file-system state `φ`.
A call that changes the file system returns its error, if any, and the new
state.  `openFile` is `os.OpenFile` with `O_CREATE|O_WRONLY`; `write` writes
at the start of the file just opened; `close` is `f.Close()`, whose error
the code drops. -/
structure OS (φ : Type) where
  goos : String
  join : List String → String
  lstat : String → φ → Except Error Nat
  mkdir : String → Nat → φ → Option Error × φ
  remove : String → φ → Option Error × φ
  openFile : String → Nat → φ → Option Error × φ
  write : String → String → φ → Option Error × φ
  readFile : String → φ → Except Error String
  close : String → φ → φ

/-- The template engine (`text/template`): `parse` is
`template.New(..).Option(..).Funcs(fm).Parse(text)`, its error being what
`template.Must` panics with; `execute` runs a parsed template against the
registry and gives the text produced, the error that stopped it, if any, and
the terminal state the providers left.  The answer `none` means that the
description of the engine has no answer for the input. -/
structure Engine (κ τ : Type) where
  parse : FuncMap τ → String → Option (Except Error κ)
  execute : FuncMap τ → κ → τ → Option ((String × Option Error) × τ)

/-- The state `Execute` runs in: the file system and the terminal. -/
structure World (φ τ : Type) where
  fs : φ
  term : τ

/-- One call of the walk function by `filepath.Walk`: the path visited, the
result of `filepath.Rel(t.Path, filename)`, `info.IsDir()`, and the error
`filepath.Walk` passes in. -/
structure Entry where
  filename : String
  rel : Except Error String
  isDir : Bool
  err : Option Error

/-- The class `\S` of the regular expression of line 194: every character but
tab, newline, form feed, carriage return and space. -/
def matchesNonSpace (c : Char) : Bool :=
  !(c = '\t' || c = '\n' || c = '\x0c' || c = '\r' || c = ' ')

/-- The function literal `isOnlyWhitespace` (lines 193-197). -/
def isOnlyWhitespace (buf : String) : Bool :=
  !(buf.data.any matchesNonSpace)

/-- The deferred function literal of lines 261-272: a failed re-read is
logged and dropped, and the result of `os.Remove` is not looked at. -/
def prune {φ : Type} (os : OS φ) (fname : String) (fs : φ) : φ :=
  match os.readFile fname fs with
  | .error _ => fs
  | .ok contents => if isOnlyWhitespace contents then (os.remove fname fs).2 else fs

/-- The result of `ExecuteTemplate` (line 282) once the template has produced
`out` and stopped with `oerr`: the text is written to the destination file,
and a failed write is the error returned. -/
def writeRendered {φ τ : Type} (os : OS φ) (target : String) (out : String)
    (oerr : Option Error) (fs : φ) (term : τ) : Outcome × World φ τ :=
  let wr := if out = "" then (none, fs) else os.write target out fs
  match wr.1 with
  | some err => (.failed err, { fs := wr.2, term := term })
  | none =>
    match oerr with
    | some err => (.failed err, { fs := wr.2, term := term })
    | none => (.done, { fs := wr.2, term := term })

/-- Lines 274-284: `template.Must(..ParseFiles(filename))` and
`ExecuteTemplate(f, ..)`. -/
def renderContents {φ κ τ : Type} (os : OS φ) (eng : Engine κ τ) (fm : FuncMap τ)
    (filename target : String) (w : World φ τ) : Outcome × World φ τ :=
  match os.readFile filename w.fs with
  | .error err => (.panicked err, w)
  | .ok text =>
    match eng.parse fm text with
    | none => (.unmodelled, w)
    | some (.error err) => (.panicked err, w)
    | some (.ok contentsTmpl) =>
      match eng.execute fm contentsTmpl w.term with
      | none => (.unmodelled, w)
      | some r => writeRendered os target r.1.1 r.1.2 w.fs r.2

/-- Lines 255-289: the destination file is created, the content rendered into
it, and the two deferred calls run however the rendering ended: the pruning
first, then `f.Close()`. -/
def createAndRender {φ κ τ : Type} (os : OS φ) (eng : Engine κ τ) (fm : FuncMap τ)
    (filename target : String) (mode : Nat) (w : World φ τ) : Outcome × World φ τ :=
  let op := os.openFile target mode w.fs
  match op.1 with
  | some err => (.failed err, { w with fs := op.2 })
  | none =>
    let r := renderContents os eng fm filename target { w with fs := op.2 }
    (r.1, { r.2 with fs := os.close target (prune os target r.2.fs) })

/-- The `else` branch of the walk function (lines 245-289). -/
def visitFile {φ κ τ : Type} (os : OS φ) (eng : Engine κ τ) (fm : FuncMap τ)
    (filename target : String) (w : World φ τ) : Outcome × World φ τ :=
  match os.lstat filename w.fs with
  | .error err => (.failed err, w)
  | .ok mode =>
    let rm := os.remove target w.fs
    match rm.1 with
    | some err =>
      if !err.isNotExist then (.failed err, { w with fs := rm.2 })
      else createAndRender os eng fm filename target mode { w with fs := rm.2 }
    | none => createAndRender os eng fm filename target mode { w with fs := rm.2 }

/-- The `if info.IsDir()` branch of the walk function (lines 238-243). -/
def visitDir {φ τ : Type} (os : OS φ) (target : String) (w : World φ τ) :
    Outcome × World φ τ :=
  let mk := os.mkdir target 0o755 w.fs
  match mk.1 with
  | some err =>
    if !err.isExist then (.failed err, { w with fs := mk.2 })
    else (.done, { w with fs := mk.2 })
  | none => (.done, { w with fs := mk.2 })

/-- The walk function given to `filepath.Walk` (lines 201-292).  The success
message of line 287 is logging and is left out. -/
def visit {φ κ τ : Type} (os : OS φ) (eng : Engine κ τ) (fm : FuncMap τ)
    (dirPrefix : String) (e : Entry) (w : World φ τ) : Outcome × World φ τ :=
  match e.err with
  | some err => (.failed err, w)
  | none =>
    match e.rel with
    | .error err => (.failed err, w)
    | .ok oldName =>
      match eng.parse fm (toSlash oldName) with
      | none => (.unmodelled, w)
      | some (.error err) => (.panicked err, w)
      | some (.ok fnameTmpl) =>
        match eng.execute fm fnameTmpl w.term with
        | none => (.unmodelled, w)
        | some r =>
          match r.1.2 with
          | some err => (.failed err, { w with term := r.2 })
          | none =>
            let newName := sanitizePathForWindows os.goos os.join r.1.1
            let target := os.join [dirPrefix, newName]
            if e.isDir then visitDir os target { w with term := r.2 }
            else visitFile os eng fm e.filename target { w with term := r.2 }

/-- The traversal of `filepath.Walk` over the entries it enumerates: the walk
function is called entry by entry and the first result that is not `nil`
ends the walk.  (The sentinel `filepath.SkipDir` is not among the errors of
the embedding.) -/
def walk {φ τ : Type} (fn : Entry → World φ τ → Outcome × World φ τ) :
    List Entry → World φ τ → Outcome × World φ τ
  | [], w => (.done, w)
  | e :: rest, w =>
    match fn e w with
    | (.done, w1) => walk fn rest w1
    | r => r

/-- The method `Execute` (lines 190-293); `entries` are the calls `filepath.Walk` makes
for the tree under `t.Path`. -/
def dirTemplate.Execute {μ φ κ τ : Type} (New : PromptNew τ) (os : OS φ) (eng : Engine κ τ)
    (entries : List Entry) (t : dirTemplate μ τ) (dirPrefix : String) (w : World φ τ) :
    Outcome × World φ τ :=
  walk (visit os eng (t.BindPrompts New).FuncMap dirPrefix) entries w

/-! ### A file system in memory -/

/-- The path with its last element dropped, before cleaning. -/
def dropLastElement (isSep : Char → Bool) (cs : List Char) : List Char :=
  (cs.reverse.dropWhile (fun c => !isSep c)).reverse

/-- The library function `filepath.Dir` for a path without volume name: all
but the last element, cleaned. -/
def dirWith (isSep : Char → Bool) (sep : Char) (path : String) : String :=
  String.mk (cleanPath isSep sep (dropLastElement isSep path.data))

/-- The library function `filepath.Dir` on Unix. -/
def unixDir : String → String :=
  dirWith (fun c => c = '/') '/'

/-- What the file system in memory needs to know of the host: `runtime.GOOS`,
`filepath.Join`, `filepath.Dir` and the umask of the process. -/
structure Host where
  goos : String
  join : List String → String
  dir : String → String
  umask : Nat

/-- A node of the file system: a directory with its permission bits, or a
file with its permission bits and content. -/
inductive Node where
  | dir (mode : Nat) : Node
  | file (mode : Nat) (content : String) : Node
  deriving DecidableEq

/-- The file system: the nodes by path, and the paths of the files that are
open. -/
structure MemFS where
  nodes : List (String × Node)
  opened : List String
  deriving DecidableEq

/-- The first node recorded for a path. -/
def findNode : List (String × Node) → String → Option Node
  | [], _ => none
  | (p, n) :: rest, q => if q = p then some n else findNode rest q

/-- The node at a path, if any. -/
def MemFS.node (fs : MemFS) (path : String) : Option Node :=
  findNode fs.nodes path

/-- The nodes without those recorded for a path. -/
def eraseNode : List (String × Node) → String → List (String × Node)
  | [], _ => []
  | (p, n) :: rest, q => if p = q then eraseNode rest q else (p, n) :: eraseNode rest q

/-- The file system with the node at `path` replaced. -/
def MemFS.put (fs : MemFS) (path : String) (n : Option Node) : MemFS :=
  match n with
  | some x => { fs with nodes := (path, x) :: eraseNode fs.nodes path }
  | none => { fs with nodes := eraseNode fs.nodes path }

/-- Whether the directory `d` holds an entry. -/
def MemFS.hasChild (h : Host) (fs : MemFS) (d : String) : Bool :=
  fs.nodes.any (fun pn => pn.1 ≠ d ∧ h.dir pn.1 = d)

/-- Whether an entry can be made at `path`: its parent is its own parent (the
root, or the working directory `.`), or is a directory of the file system. -/
def MemFS.parentReady (h : Host) (fs : MemFS) (path : String) : Bool :=
  if h.dir (h.dir path) = h.dir path then true
  else
    match fs.node (h.dir path) with
    | some (.dir _) => true
    | _ => false

/-- The permission bits a new node gets: the bits asked for, less the umask. -/
def applyUmask (umask mode : Nat) : Nat :=
  mode - (mode &&& umask)

/-- Writing `out` at offset 0 over the content `old`. -/
def overwrite (out old : String) : String :=
  out ++ String.mk (old.data.drop out.length)

/-- The operating system over the file system in memory.  A call fails when
the state forbids it: an entry is made only under an existing directory, a
directory is removed only when empty, and on Windows a file that is open is
not removed.  New nodes get the bits asked for less the umask.  There is no
fault (full disk, I/O error), no symbolic link, and permission bits are
recorded but not enforced: the process may read and write every node. -/
def memOS (h : Host) : OS MemFS :=
  { goos := h.goos
    join := h.join
    lstat := fun path fs =>
      match fs.node path with
      | none => .error .notExist
      | some (.dir mode) => .ok mode
      | some (.file mode _) => .ok mode
    mkdir := fun path perm fs =>
      match fs.node path with
      | some _ => (some .exist, fs)
      | none =>
        if fs.parentReady h path then (none, fs.put path (some (.dir (applyUmask h.umask perm))))
        else (some .notExist, fs)
    remove := fun path fs =>
      match fs.node path with
      | none => (some .notExist, fs)
      | some (.file _ _) =>
        if h.goos = "windows" ∧ path ∈ fs.opened then
          (some (.other "file is used by another process"), fs)
        else (none, fs.put path none)
      | some (.dir _) =>
        if fs.hasChild h path then (some (.other "directory not empty"), fs)
        else (none, fs.put path none)
    openFile := fun path perm fs =>
      match fs.node path with
      | none =>
        if fs.parentReady h path then
          (none, { fs.put path (some (.file (applyUmask h.umask perm) "")) with
                   opened := path :: fs.opened })
        else (some .notExist, fs)
      | some (.file _ _) => (none, { fs with opened := path :: fs.opened })
      | some (.dir _) => (some (.other "is a directory"), fs)
    write := fun path out fs =>
      if path ∈ fs.opened then
        match fs.node path with
        | some (.file mode old) => (none, fs.put path (some (.file mode (overwrite out old))))
        | _ => (none, fs)
      else (some (.other "file already closed"), fs)
    readFile := fun path fs =>
      match fs.node path with
      | some (.file _ content) => .ok content
      | none => .error .notExist
      | some (.dir _) => .error (.other "is a directory")
    close := fun path fs => { fs with opened := fs.opened.erase path } }

/-- A parsed template: literal text and actions `{{name}}` that call the
zero-argument function `name`. -/
inductive Piece where
  | text (s : String) : Piece
  | call (name : String) : Piece
  deriving DecidableEq

/-- The pending literal text, if any, as a piece. -/
def flushText (acc : List Char) : List Piece :=
  if acc = [] then [] else [.text (String.mk acc.reverse)]

/-- The content of an action without the blanks around it. -/
def trimBlanks (cs : List Char) : String :=
  String.mk ((cs.dropWhile (fun c => c = ' ')).reverse.dropWhile (fun c => c = ' ')).reverse

/-- The lexer: text up to an opening `{{`, then an action up to `}}`; no
answer for an action that is not closed. -/
def scan : Bool → List Char → List Char → Option (List Piece)
  | inAction, acc, [] => if inAction then none else some (flushText acc)
  | inAction, acc, [c] => if inAction then none else some (flushText (c :: acc))
  | inAction, acc, c :: d :: rest =>
    if inAction then
      if c = '}' ∧ d = '}' then
        (scan false [] rest).map (fun ps => .call (trimBlanks acc.reverse) :: ps)
      else scan true (c :: acc) (d :: rest)
    else
      if c = '{' ∧ d = '{' then
        (scan true [] rest).map (fun ps => flushText acc ++ ps)
      else scan false (c :: acc) (d :: rest)

/-- Whether a name is an identifier for `text/template`: `none` when it has a
character outside ASCII, which this description does not classify. -/
def identStatus (name : String) : Option Bool :=
  if name.data.any (fun c => 128 ≤ c.toNat) then none
  else
    match name.data with
    | [] => some false
    | c :: rest =>
      some ((c.isAlpha || c = '_') && rest.all (fun d => d.isAlpha || d.isDigit || d = '_'))

/-- The words an action cannot use as the name of a registry function without
more ado: the keywords, the boolean constants and the predefined functions
of `text/template`. -/
def reservedWords : List String :=
  ["block", "break", "continue", "define", "else", "end", "if", "range", "nil", "template",
   "with", "true", "false", "and", "call", "html", "index", "slice", "js", "len", "not", "or",
   "print", "printf", "println", "urlquery", "eq", "ge", "gt", "le", "lt", "ne"]

/-- The check `Funcs` makes on the names of the registry: it panics on a name
that is not an identifier. -/
def checkNames : List String → Option (Except Error Unit)
  | [] => some (.ok ())
  | n :: rest =>
    match identStatus n with
    | none => none
    | some false => some (.error (.other ("function name is not a valid identifier: " ++ n)))
    | some true => checkNames rest

/-- The check of the actions of a template against the registry, whose names
are `names`: an action that is one identifier, not a reserved word, must be a
name of the registry, or parsing fails with "function not defined".  Every
other action (a pipeline, a field, a comment, a trim marker, a reserved word)
is left without an answer. -/
def checkCalls {τ : Type} (names : List String) (fm : FuncMap τ) :
    List Piece → Option (Except Error Unit)
  | [] => some (.ok ())
  | .text _ :: rest => checkCalls names fm rest
  | .call name :: rest =>
    match identStatus name with
    | some true =>
      if name ∈ reservedWords then none
      else if name ∈ names then
        if (fm name).isSome then checkCalls names fm rest else none
      else
        if (fm name).isSome then none
        else some (.error (.other ("function not defined: " ++ name)))
    | _ => none

/-- Parsing for the sample trees: what `Funcs` and `Parse` of `text/template`
answer for a registry whose names are `names`, on the texts made of literal
text and actions `{{name}}`; no answer on any other text. -/
def parseSample {τ : Type} (names : List String) (fm : FuncMap τ) (text : String) :
    Option (Except Error (List Piece)) :=
  match checkNames names with
  | none => none
  | some (.error err) => some (.error err)
  | some (.ok _) =>
    match scan false [] text.data with
    | none => none
    | some ps =>
      match checkCalls names fm ps with
      | none => none
      | some (.error err) => some (.error err)
      | some (.ok _) => some (.ok ps)

/-- Printing of a value by an action, for strings and booleans; no answer for
the other values. -/
def printSample : Value → Option String
  | .str s => some s
  | .bool true => some "true"
  | .bool false => some "false"
  | _ => none

/-- Execution for the sample trees: text is copied, an action prints the
value its function returns; a panic of the function is returned as an
error. -/
def runPieces {τ : Type} (fm : FuncMap τ) :
    List Piece → String → τ → Option ((String × Option Error) × τ)
  | [], out, w => some ((out, none), w)
  | .text s :: rest, out, w => runPieces fm rest (out ++ s) w
  | .call name :: rest, out, w =>
    match fm name with
    | none => none
    | some p =>
      match p w with
      | (.val v, w1) =>
        match printSample v with
        | none => none
        | some printed => runPieces fm rest (out ++ printed) w1
      | (.panic _, w1) => some ((out, some (.other ("error calling " ++ name))), w1)

/-- The engine used on the sample trees, for a registry whose names are
`names`. -/
def sampleEngine {τ : Type} (names : List String) : Engine (List Piece) τ :=
  { parse := parseSample names
    execute := fun fm ps w => runPieces fm ps "" w }

/-! ### Sample trees -/

/-- A Unix host with the usual umask. -/
def unixHost : Host := { goos := "linux", join := unixJoin, dir := unixDir, umask := 0o022 }

/-- The operating system of the Unix host. -/
def unixOS : OS MemFS := memOS unixHost

/-- The package of the scenario of the specification: the tree
`template/{{name}}.txt` with body `Hello, {{name}}!`, and an existing
destination root `out`. -/
def helloTree : MemFS :=
  { nodes :=
      [ ("pkg", .dir 0o755), ("pkg/template", .dir 0o755),
        ("pkg/template/\x7b\x7bname\x7d\x7d.txt", .file 0o644 "Hello, \x7b\x7bname\x7d\x7d!"),
        ("out", .dir 0o755) ]
    opened := [] }

/-- The file entry of `helloTree`. -/
def helloFile : Entry :=
  { filename := "pkg/template/\x7b\x7bname\x7d\x7d.txt", rel := .ok "\x7b\x7bname\x7d\x7d.txt",
    isDir := false, err := none }

/-- The calls `filepath.Walk` makes for `helloTree`. -/
def helloEntries : List Entry :=
  [ { filename := "pkg/template", rel := .ok ".", isDir := true, err := none }, helloFile ]

/-- The Context `{"name": "World"}`. -/
def ctxHello : Context := [("name", .str "World")]

/-- A tree with the file `a.txt` whose body calls `missing`, and the file
`b.txt`; the destination `out/a.txt` exists already. -/
def missingTree : MemFS :=
  { nodes :=
      [ ("pkg", .dir 0o755), ("pkg/template", .dir 0o755),
        ("pkg/template/a.txt", .file 0o644 "x = \x7b\x7bmissing\x7d\x7d"),
        ("pkg/template/b.txt", .file 0o644 "b"),
        ("out", .dir 0o755), ("out/a.txt", .file 0o644 "old") ]
    opened := [] }

/-- The file entry `a.txt` of `missingTree`. -/
def missingFile : Entry :=
  { filename := "pkg/template/a.txt", rel := .ok "a.txt", isDir := false, err := none }

/-- The tree of `missingTree` without the destination root `out`. -/
def noRootTree : MemFS :=
  { nodes :=
      [ ("pkg", .dir 0o755), ("pkg/template", .dir 0o755),
        ("pkg/template/a.txt", .file 0o644 "x = \x7b\x7bmissing\x7d\x7d") ]
    opened := [] }

/-- A tree with the file `blank.txt` whose body is one space, and the file
`c.txt`. -/
def blankTree : MemFS :=
  { nodes :=
      [ ("pkg", .dir 0o755), ("pkg/template", .dir 0o755),
        ("pkg/template/blank.txt", .file 0o644 " "),
        ("pkg/template/c.txt", .file 0o644 "c"),
        ("out", .dir 0o755) ]
    opened := [] }

/-- The calls `filepath.Walk` makes for `blankTree`. -/
def blankEntries : List Entry :=
  [ { filename := "pkg/template", rel := .ok ".", isDir := true, err := none },
    { filename := "pkg/template/blank.txt", rel := .ok "blank.txt", isDir := false,
      err := none },
    { filename := "pkg/template/c.txt", rel := .ok "c.txt", isDir := false, err := none } ]

/-- A host on which reading back a file under `out` fails. -/
def unreadableOutOS : OS MemFS :=
  { unixOS with
    readFile := fun path fs =>
      if path = "out/blank.txt" then .error (.other "permission denied")
      else unixOS.readFile path fs }

/-- A host on which removing an existing file fails. -/
def stickyOS : OS MemFS :=
  { unixOS with
    remove := fun path fs =>
      match fs.node path with
      | none => (some .notExist, fs)
      | some _ => (some (.other "operation not permitted"), fs) }

end Boilr

namespace Boilr

/-! ## Properties of `BindPrompts` -/

theorem bindGroup_eq_setAll {τ : Type} (New : PromptNew τ) (d : Bool) (adv : Provider τ)
    (m : List (String × Value)) (fm : FuncMap τ) :
    bindGroup New d adv m fm = fm.setAll (groupAssignments New d adv m) := by
  unfold bindGroup FuncMap.setAll groupAssignments
  induction m generalizing fm with
  | nil => rfl
  | cons kv rest ih =>
    simp only [List.foldl_cons, List.map_cons]
    rw [ih]
    cases d <;> rfl

theorem setAll_append {τ : Type} (fm : FuncMap τ) (l1 l2 : List (String × Provider τ)) :
    fm.setAll (l1 ++ l2) = (fm.setAll l1).setAll l2 := by
  simp [FuncMap.setAll, List.foldl_append]

theorem bindEntry_eq_setAll {τ : Type} (New : PromptNew τ) (d : Bool)
    (fm : FuncMap τ) (sv : String × Value) :
    bindEntry New d fm sv = fm.setAll (entryAssignments New d sv) := by
  obtain ⟨s, v⟩ := sv
  cases v <;> simp only [bindEntry, entryAssignments, bindGroup_eq_setAll] <;>
    cases d <;> rfl

theorem setAll_of_not_mem {τ : Type} (l : List (String × Provider τ)) (fm : FuncMap τ)
    (n : String) (h : n ∉ l.map Prod.fst) : fm.setAll l n = fm n := by
  induction l generalizing fm with
  | nil => rfl
  | cons a rest ih =>
    simp only [List.map_cons, List.mem_cons, not_or] at h
    have hstep : fm.setAll (a :: rest) = (fm.set a.1 a.2).setAll rest := rfl
    rw [hstep, ih _ h.2]
    simp [FuncMap.set, h.1]

theorem setAll_of_count_one {τ : Type} (l : List (String × Provider τ)) (fm : FuncMap τ)
    (n : String) (p : Provider τ) (hmem : (n, p) ∈ l)
    (hc : (l.map Prod.fst).count n = 1) : fm.setAll l n = some p := by
  induction l generalizing fm with
  | nil => simp at hmem
  | cons a rest ih =>
    have hstep : fm.setAll (a :: rest) = (fm.set a.1 a.2).setAll rest := rfl
    rw [hstep]
    by_cases hin : n ∈ rest.map Prod.fst
    · have hpos : 0 < (rest.map Prod.fst).count n := List.count_pos_iff.mpr hin
      have hne : a.1 ≠ n := by
        intro heq
        simp only [List.map_cons, heq, List.count_cons_self] at hc
        omega
      have hc2 : (rest.map Prod.fst).count n = 1 := by
        simpa [List.map_cons, List.count_cons_of_ne (Ne.symm hne)] using hc
      have hmem2 : (n, p) ∈ rest := by
        rcases List.mem_cons.mp hmem with h | h
        · exact absurd (by rw [← h]) hne
        · exact h
      exact ih _ hmem2 hc2
    · rw [setAll_of_not_mem rest _ n hin]
      have ha : (n, p) = a := by
        rcases List.mem_cons.mp hmem with h | h
        · exact h
        · exact absurd (List.mem_map_of_mem Prod.fst h) hin
      subst ha
      simp [FuncMap.set]

theorem assignments_keys {τ : Type} (New : PromptNew τ) (d : Bool) (ctx : Context) :
    (assignments New d ctx).map Prod.fst = declaredNames ctx := by
  induction ctx with
  | nil => rfl
  | cons sv rest ih =>
    obtain ⟨s, v⟩ := sv
    have hrest : declaredNames ((s, v) :: rest)
        = (entryDeclarations (s, v)).map Prod.fst ++ declaredNames rest := by
      simp [declaredNames, declarations]
    rw [hrest, ← ih]
    cases v <;>
      simp [assignments, entryAssignments, entryDeclarations, groupAssignments,
        Function.comp_def]

theorem mem_assignments_default {τ : Type} (New : PromptNew τ) (ctx : Context)
    (n : String) (v : Value) (h : (n, v) ∈ declarations ctx) :
    (n, defaultProvider v) ∈ assignments New true ctx := by
  induction ctx with
  | nil => simp [declarations] at h
  | cons sv rest ih =>
    obtain ⟨s, u⟩ := sv
    simp only [declarations, List.mem_append] at h
    simp only [assignments, List.mem_append]
    rcases h with h | h
    · left
      cases u <;>
        simp_all [entryDeclarations, entryAssignments, groupAssignments]
      exact ⟨n, v, h, rfl, rfl⟩
    · exact Or.inr (ih h)

theorem mem_assignments_gated {τ : Type} (New : PromptNew τ) (ctx : Context)
    (g : String) (m : List (String × Value)) (x : String) (d : Value)
    (hg : (g, Value.obj m) ∈ ctx) (hx : (x, d) ∈ m) :
    (x, gatedProvider (New g (.bool false)) (New x d) d) ∈ assignments New false ctx := by
  induction ctx with
  | nil => simp at hg
  | cons sv rest ih =>
    simp only [assignments, List.mem_append]
    rcases List.mem_cons.mp hg with h | h
    · left
      subst h
      simp only [entryAssignments, groupAssignments, List.mem_map]
      exact ⟨(x, d), hx, by simp⟩
    · exact Or.inr (ih h)

theorem mem_declarations_of_group (ctx : Context) (g : String) (m : List (String × Value))
    (x : String) (d : Value) (hg : (g, Value.obj m) ∈ ctx) (hx : (x, d) ∈ m) :
    (x, d) ∈ declarations ctx := by
  induction ctx with
  | nil => simp at hg
  | cons sv rest ih =>
    simp only [declarations, List.mem_append]
    rcases List.mem_cons.mp hg with h | h
    · left
      subst h
      simpa [entryDeclarations] using hx
    · exact Or.inr (ih h)

/-- The registry after `BindPrompts` is the initial registry with the
assignments performed in order. -/
theorem BindPrompts_FuncMap {μ τ : Type} (New : PromptNew τ) (t : dirTemplate μ τ) :
    (t.BindPrompts New).FuncMap
      = t.FuncMap.setAll (assignments New t.ShouldUseDefaults t.Context) := by
  unfold dirTemplate.BindPrompts
  simp only
  generalize t.FuncMap = fm
  induction t.Context generalizing fm with
  | nil => rfl
  | cons sv rest ih =>
    simp only [List.foldl_cons, assignments, setAll_append]
    rw [ih, bindEntry_eq_setAll]

theorem setAll_of_mem_keys {τ : Type} (l : List (String × Provider τ)) (fm : FuncMap τ)
    (n : String) (h : n ∈ l.map Prod.fst) : ∃ p, (n, p) ∈ l ∧ fm.setAll l n = some p := by
  induction l generalizing fm with
  | nil => simp at h
  | cons a rest ih =>
    have hstep : fm.setAll (a :: rest) = (fm.set a.1 a.2).setAll rest := rfl
    rw [hstep]
    by_cases hin : n ∈ rest.map Prod.fst
    · obtain ⟨p, hp, hq⟩ := ih (fm.set a.1 a.2) hin
      exact ⟨p, List.mem_cons_of_mem _ hp, hq⟩
    · have hna : n = a.1 := by
        simp only [List.map_cons, List.mem_cons] at h
        rcases h with h | h
        · exact h
        · exact absurd h hin
      refine ⟨a.2, ?_, ?_⟩
      · rw [hna]; exact List.mem_cons_self _ _
      · rw [setAll_of_not_mem rest _ n hin]
        simp [FuncMap.set, hna]

theorem mem_assignments_default_inv {τ : Type} (New : PromptNew τ) (ctx : Context)
    (n : String) (p : Provider τ) (h : (n, p) ∈ assignments New true ctx) :
    ∃ v, (n, v) ∈ declarations ctx ∧ p = defaultProvider v := by
  induction ctx with
  | nil => simp [assignments] at h
  | cons sv rest ih =>
    obtain ⟨s, u⟩ := sv
    simp only [assignments, List.mem_append] at h
    rcases h with h | h
    · cases u <;>
        simp only [entryAssignments, groupAssignments, List.mem_singleton, List.mem_map,
          Prod.mk.injEq, if_true] at h
      case obj m =>
        obtain ⟨kv, hkv, hk, hp⟩ := h
        refine ⟨kv.2, ?_, hp.symm⟩
        simp only [declarations, List.mem_append, entryDeclarations]
        left
        rw [← hk]
        exact hkv
      all_goals
        refine ⟨_, ?_, h.2⟩
        simp [declarations, entryDeclarations, h.1]
    · obtain ⟨v, hv, hp⟩ := ih h
      exact ⟨v, by simp [declarations, hv], hp⟩

theorem defaultProvider_total {τ : Type} (v : Value) (hv : v ≠ Value.list []) (w : τ) :
    ∃ u, defaultProvider v w = (Result.val u, w) := by
  cases v with
  | list xs =>
    cases xs with
    | nil => exact absurd rfl hv
    | cons x xs => exact ⟨x, rfl⟩
  | _ => exact ⟨_, rfl⟩

theorem defaultProvider_eq_firstOrSelf {τ : Type} (v : Value)
    (hv : v.isScalar = true ∨ ∃ x xs, v = Value.list (x :: xs)) (w : τ) :
    defaultProvider v w = (Result.val (firstOrSelf v), w) := by
  rcases hv with hv | ⟨x, xs, rfl⟩
  · cases v <;> simp [Value.isScalar] at hv <;> rfl
  · rfl

theorem mem_declarations (ctx : Context) (n : String) (v : Value)
    (h : (n, v) ∈ declarations ctx) :
    ∃ s u, (s, u) ∈ ctx ∧ (n, v) ∈ entryDeclarations (s, u) := by
  induction ctx with
  | nil => simp [declarations] at h
  | cons a rest ih =>
    simp only [declarations, List.mem_append] at h
    rcases h with h1 | h1
    · exact ⟨a.1, a.2, List.mem_cons_self _ _, h1⟩
    · obtain ⟨s1, u1, h2, h3⟩ := ih h1
      exact ⟨s1, u1, List.mem_cons_of_mem _ h2, h3⟩

theorem group_name_not_declared (ctx : Context) (g : String) (m : List (String × Value))
    (hg : (g, Value.obj m) ∈ ctx) (hkeys : (ctx.map Prod.fst).Nodup)
    (hsub : ∀ s m1, (s, Value.obj m1) ∈ ctx → g ∉ m1.map Prod.fst) :
    g ∉ declaredNames ctx := by
  induction ctx with
  | nil => simp at hg
  | cons sv rest ih =>
    obtain ⟨s, u⟩ := sv
    simp only [List.map_cons, List.nodup_cons] at hkeys
    have hsplit : declaredNames ((s, u) :: rest)
        = (entryDeclarations (s, u)).map Prod.fst ++ declaredNames rest := by
      simp [declaredNames, declarations]
    rw [hsplit, List.mem_append, not_or]
    have htail : ∀ s1 m1, (s1, Value.obj m1) ∈ rest → g ∉ m1.map Prod.fst :=
      fun s1 m1 h => hsub s1 m1 (List.mem_cons_of_mem _ h)
    rcases List.mem_cons.mp hg with h | h
    · have hs : g = s := (Prod.mk.inj h).1
      have hu : Value.obj m = u := (Prod.mk.inj h).2
      subst hs hu
      refine ⟨by simpa [entryDeclarations] using hsub g m (List.mem_cons_self _ _), ?_⟩
      intro hmem
      obtain ⟨⟨n, v⟩, hnv, hn⟩ := List.mem_map.mp hmem
      simp only at hn
      subst hn
      have hv := mem_declarations rest n v hnv
      obtain ⟨s1, u1, hin, hd⟩ := hv
      cases u1 with
      | obj m1 =>
        exact htail s1 m1 hin (List.mem_map.mpr ⟨(n, v), by simpa [entryDeclarations] using hd, rfl⟩)
      | _ =>
        simp only [entryDeclarations, List.mem_singleton, Prod.mk.injEq] at hd
        exact hkeys.1 (List.mem_map.mpr ⟨(s1, _), hin, hd.1.symm⟩)
    · have hne : s ≠ g := by
        intro heq
        exact hkeys.1 (List.mem_map.mpr ⟨(g, Value.obj m), h, heq.symm⟩)
      refine ⟨?_, ih h hkeys.2 htail⟩
      cases u with
      | obj m1 =>
        simpa [entryDeclarations] using hsub s m1 (List.mem_cons_self _ _)
      | _ => simp [entryDeclarations, Ne.symm hne]

/-! ### Defaulted mode -/

/-- C2 (as worded) fails: in the Context `{"x": "a", "g": {"x": "b"}}` the name
`x` is declared twice, the registry keeps one provider for it, and whichever
entry `range` visits first, one of the two declarations does not resolve to
its own value. -/
theorem defaulted_resolution_fails_on_shared_name :
    ¬ DefaultedResolves promptNew (mkTemplate ctxShadow true) ∧
    ¬ DefaultedResolves promptNew (mkTemplate ctxShadowRev true) := by
  constructor
  · intro h
    obtain ⟨p, hp, hw⟩ := h "x" (.str "a") (by simp [ctxShadow, mkTemplate, declarations, entryDeclarations])
      (Or.inl rfl)
    have hreg : ((mkTemplate ctxShadow true).BindPrompts promptNew).FuncMap "x"
        = some (defaultProvider (.str "b")) := rfl
    rw [hreg] at hp
    have hq := hw quiet
    rw [← Option.some.inj hp] at hq
    simp [defaultProvider, firstOrSelf] at hq
  · intro h
    obtain ⟨p, hp, hw⟩ := h "x" (.str "b") (by simp [ctxShadowRev, mkTemplate, declarations, entryDeclarations])
      (Or.inl rfl)
    have hreg : ((mkTemplate ctxShadowRev true).BindPrompts promptNew).FuncMap "x"
        = some (defaultProvider (.str "a")) := rfl
    rw [hreg] at hp
    have hq := hw quiet
    rw [← Option.some.inj hp] at hq
    simp [defaultProvider, firstOrSelf] at hq

/-- C2 (amended): in Defaulted mode, for every Context, every prompt
implementation and every variable name `n` that is declared exactly once
(counting flat entries and the sub-keys of all groups) with a scalar or
non-empty list value `v`, the provider found under `n` after `BindPrompts`
returns the first element of `v` when `v` is a list and `v` otherwise, on
every invocation and from every terminal state, and leaves the terminal state
unchanged: no prompt is invoked. -/
theorem defaulted_provider_of_unique_name {μ τ : Type} (New : PromptNew τ)
    (t : dirTemplate μ τ) (hmode : t.ShouldUseDefaults = true)
    (n : String) (v : Value) (hdecl : (n, v) ∈ declarations t.Context)
    (honce : (declaredNames t.Context).count n = 1)
    (hv : v.isScalar = true ∨ ∃ x xs, v = Value.list (x :: xs)) :
    ∃ p, (t.BindPrompts New).FuncMap n = some p ∧
      ∀ w, p w = (Result.val (firstOrSelf v), w) := by
  refine ⟨defaultProvider v, ?_, fun w => defaultProvider_eq_firstOrSelf v hv w⟩
  rw [BindPrompts_FuncMap, hmode]
  apply setAll_of_count_one
  · exact mem_assignments_default New t.Context n v hdecl
  · rw [assignments_keys]; exact honce

/-- C2 witness: the flat variable `name` declared as `["a", "b", "c"]`
resolves to `"a"` in Defaulted mode. -/
theorem defaulted_provider_of_unique_name_witness :
    ∃ p, ((mkTemplate ctxFlatList true).BindPrompts promptNew).FuncMap "name" = some p ∧
      ∀ w, p w = (Result.val (.str "a"), w) :=
  defaulted_provider_of_unique_name promptNew (mkTemplate ctxFlatList true) rfl "name"
    (.list [.str "a", .str "b", .str "c"])
    (by simp [ctxFlatList, mkTemplate, declarations, entryDeclarations])
    (by simp [ctxFlatList, mkTemplate, declaredNames, declarations, entryDeclarations])
    (Or.inr ⟨_, _, rfl⟩)

/-- C10 (as worded) fails: in the Context `{"x": [], "g": {"x": "b"}}`, when
`range` visits the flat entry first, the closure registered for the empty
list is overwritten by the one of the sub-key `x` of `g`, and the provider
found under `x` returns `"b"` instead of panicking. -/
theorem empty_list_provider_overwritten_by_shared_name :
    ¬ EmptyListPanics promptNew (mkTemplate ctxEmptyShadow true) ∧
    ∃ p, ((mkTemplate ctxEmptyShadow true).BindPrompts promptNew).FuncMap "x" = some p ∧
      p quiet = (Result.val (.str "b"), quiet) := by
  have hreg : ((mkTemplate ctxEmptyShadow true).BindPrompts promptNew).FuncMap "x"
      = some (defaultProvider (.str "b")) := rfl
  refine ⟨?_, _, hreg, rfl⟩
  intro h
  obtain ⟨p, hp, hw⟩ := h "x"
    (by simp [ctxEmptyShadow, mkTemplate, declarations, entryDeclarations])
  rw [hreg] at hp
  have hq := hw quiet
  rw [← Option.some.inj hp] at hq
  simp [defaultProvider] at hq

/-- C10 (amended): in Defaulted mode `BindPrompts` completes: its registry is
the initial one with the assignments performed in order.  For every variable
that is declared with an empty list, flat or inside a group, and whose name is
declared exactly once in the Context, the provider found under that name
after `BindPrompts` aborts with an index-out-of-range panic on every
invocation.  Conversely, when no declared value is an empty list, every
provider `BindPrompts` registers, and so the provider found under every
declared name, returns a value and leaves the terminal alone. -/
theorem empty_list_default_panics_of_unique_name {μ τ : Type} (New : PromptNew τ)
    (t : dirTemplate μ τ) (hmode : t.ShouldUseDefaults = true) :
    (t.BindPrompts New).FuncMap = t.FuncMap.setAll (assignments New true t.Context) ∧
    (∀ n, (n, Value.list []) ∈ declarations t.Context →
      (declaredNames t.Context).count n = 1 →
      ∃ p, (t.BindPrompts New).FuncMap n = some p ∧
        ∀ w, p w = (Result.panic Panic.indexOutOfRange, w)) ∧
    ((∀ n v, (n, v) ∈ declarations t.Context → v ≠ Value.list []) →
      (∀ n p, (n, p) ∈ assignments New true t.Context → ∀ w, ∃ u, p w = (Result.val u, w)) ∧
      (∀ n, n ∈ declaredNames t.Context →
        ∃ p, (t.BindPrompts New).FuncMap n = some p ∧ ∀ w, ∃ u, p w = (Result.val u, w))) := by
  have hreg : (t.BindPrompts New).FuncMap
      = t.FuncMap.setAll (assignments New true t.Context) := by
    rw [BindPrompts_FuncMap, hmode]
  refine ⟨hreg, ?_, ?_⟩
  · intro n hn honce
    refine ⟨defaultProvider (.list []), ?_, fun w => rfl⟩
    rw [hreg]
    apply setAll_of_count_one
    · exact mem_assignments_default New t.Context n _ hn
    · rw [assignments_keys]; exact honce
  · intro hne
    have hall : ∀ n p, (n, p) ∈ assignments New true t.Context →
        ∀ w, ∃ u, p w = (Result.val u, w) := by
      intro n p hp w
      obtain ⟨v, hv, rfl⟩ := mem_assignments_default_inv New t.Context n p hp
      exact defaultProvider_total v (hne n v hv) w
    refine ⟨hall, fun n hn => ?_⟩
    rw [hreg]
    obtain ⟨p, hp, hq⟩ := setAll_of_mem_keys (assignments New true t.Context) t.FuncMap n
      (by rw [assignments_keys]; exact hn)
    exact ⟨p, hq, hall n p hp⟩

/-- C10 witness: with the Context `{"opts": []}` the provider found under
`opts` panics with index out of range. -/
theorem empty_list_default_panics_of_unique_name_witness :
    ∃ p, ((mkTemplate ctxEmptyList true).BindPrompts promptNew).FuncMap "opts" = some p ∧
      p quiet = (Result.panic Panic.indexOutOfRange, quiet) := by
  obtain ⟨p, hreg, hpanic⟩ :=
    (empty_list_default_panics_of_unique_name promptNew (mkTemplate ctxEmptyList true) rfl).2.1
      "opts" (by simp [ctxEmptyList, mkTemplate, declarations, entryDeclarations])
      (by simp [ctxEmptyList, mkTemplate, declaredNames, declarations, entryDeclarations])
  exact ⟨p, hreg, hpanic quiet⟩

/-! ### Interactive mode -/

/-- The provider found under a sub-key declared once is the gated closure. -/
theorem gated_provider_of_unique_name {μ τ : Type} (New : PromptNew τ)
    (t : dirTemplate μ τ) (hmode : t.ShouldUseDefaults = false)
    (g : String) (m : List (String × Value)) (x : String) (d : Value)
    (hg : (g, Value.obj m) ∈ t.Context) (hx : (x, d) ∈ m)
    (honce : (declaredNames t.Context).count x = 1) :
    (t.BindPrompts New).FuncMap x
      = some (gatedProvider (New g (.bool false)) (New x d) d) := by
  rw [BindPrompts_FuncMap, hmode]
  apply setAll_of_count_one
  · exact mem_assignments_gated New t.Context g m x d hg hx
  · rw [assignments_keys]; exact honce

/-- C3 (as worded) fails: in the Context `{"g1": {"x": "a"}, "g2": {"x": "b"}}`
both groups declare `x`; the registry keeps one provider for `x`, gated by
one toggle only, so in either visiting order the statement is false for the
other group. -/
theorem group_gating_fails_on_shared_name :
    ¬ GroupGating promptNew (mkTemplate ctxTwoGroups false) ∧
    ¬ GroupGating promptNew (mkTemplate ctxTwoGroupsRev false) := by
  constructor
  · intro h
    obtain ⟨p, hp, hw⟩ := h "g1" [("x", .str "a")] "x" (.str "a")
      (by simp [ctxTwoGroups, mkTemplate]) (by simp) rfl
    have hreg : ((mkTemplate ctxTwoGroups false).BindPrompts promptNew).FuncMap "x"
        = some (gatedProvider (promptNew "g2" (.bool false)) (promptNew "x" (.str "b"))
            (.str "b")) := rfl
    rw [hreg] at hp
    have hq := (hw quiet { quiet with shown := ["g1"] }).1 rfl
    rw [← Option.some.inj hp] at hq
    simp [gatedProvider, promptNew, quiet] at hq
  · intro h
    obtain ⟨p, hp, hw⟩ := h "g2" [("x", .str "b")] "x" (.str "b")
      (by simp [ctxTwoGroupsRev, mkTemplate]) (by simp) rfl
    have hreg : ((mkTemplate ctxTwoGroupsRev false).BindPrompts promptNew).FuncMap "x"
        = some (gatedProvider (promptNew "g1" (.bool false)) (promptNew "x" (.str "a"))
            (.str "a")) := rfl
    rw [hreg] at hp
    have hq := (hw quiet { quiet with shown := ["g2"] }).1 rfl
    rw [← Option.some.inj hp] at hq
    simp [gatedProvider, promptNew, quiet] at hq

/-- C3 (amended): in Interactive mode, for every group `g` with a
sub-variable `x` of scalar default `d`, where `x` is declared exactly once in
the Context (no other group sub-key or flat entry is named `x`): each
invocation of the provider found under `x` first runs the toggle prompt of
`g`; if it answers false the provider returns `d` in the terminal state the
toggle left (the prompt for `x` is not invoked); if it answers true the
provider returns exactly what the prompt created for `x` with default `d`
returns from that state. -/
theorem group_gating_of_unique_name {μ τ : Type} (New : PromptNew τ)
    (t : dirTemplate μ τ) (hmode : t.ShouldUseDefaults = false)
    (g : String) (m : List (String × Value)) (x : String) (d : Value)
    (hg : (g, Value.obj m) ∈ t.Context) (hx : (x, d) ∈ m) (_hd : d.isScalar = true)
    (honce : (declaredNames t.Context).count x = 1) :
    ∃ p, (t.BindPrompts New).FuncMap x = some p ∧
      ∀ w w1,
        (New g (.bool false) w = (Result.val (.bool false), w1) → p w = (Result.val d, w1)) ∧
        (New g (.bool false) w = (Result.val (.bool true), w1) → p w = New x d w1) := by
  refine ⟨_, gated_provider_of_unique_name New t hmode g m x d hg hx honce, ?_⟩
  intro w w1
  constructor <;> intro h <;> simp [gatedProvider, h]

/-- C3 witness: the Context `{"g": {"x": "d"}}` in Interactive mode. -/
theorem group_gating_of_unique_name_witness :
    ∃ p, ((mkTemplate ctxGroup false).BindPrompts promptNew).FuncMap "x" = some p ∧
      ∀ w w1,
        (promptNew "g" (.bool false) w = (Result.val (.bool false), w1) →
          p w = (Result.val (.str "d"), w1)) ∧
        (promptNew "g" (.bool false) w = (Result.val (.bool true), w1) →
          p w = promptNew "x" (.str "d") w1) :=
  group_gating_of_unique_name promptNew (mkTemplate ctxGroup false) rfl "g"
    [("x", .str "d")] "x" (.str "d") (by simp [ctxGroup, mkTemplate]) (by simp) rfl
    (by simp [ctxGroup, mkTemplate, declaredNames, declarations, entryDeclarations])

/-- C4 (what the code does): in Interactive mode, for a group `g` whose
sub-variable `x`, declared once, has the non-empty list `a :: rest` as its
default, when the toggle of `g` answers false the provider found under `x`
returns the whole list `a :: rest`, not its first element `a`. -/
theorem declined_group_returns_whole_list {μ τ : Type} (New : PromptNew τ)
    (t : dirTemplate μ τ) (hmode : t.ShouldUseDefaults = false)
    (g : String) (m : List (String × Value)) (x : String) (a : Value) (rest : List Value)
    (hg : (g, Value.obj m) ∈ t.Context) (hx : (x, Value.list (a :: rest)) ∈ m)
    (honce : (declaredNames t.Context).count x = 1) :
    ∃ p, (t.BindPrompts New).FuncMap x = some p ∧
      ∀ w w1, New g (.bool false) w = (Result.val (.bool false), w1) →
        p w = (Result.val (.list (a :: rest)), w1) := by
  refine ⟨_, gated_provider_of_unique_name New t hmode g m x _ hg hx honce, ?_⟩
  intro w w1 h
  simp [gatedProvider, h]

/-- C4 at the failing input: with `{"g": {"x": ["a", "b"]}}` and a user who
declines the group, `x` resolves to the list `["a", "b"]` and only the toggle
of `g` was displayed. -/
theorem declined_group_returns_whole_list_witness :
    ∃ p, ((mkTemplate ctxGroupList false).BindPrompts promptNew).FuncMap "x" = some p ∧
      p quiet = (Result.val (.list [.str "a", .str "b"]), { quiet with shown := ["g"] }) := by
  obtain ⟨p, hp, hw⟩ := declined_group_returns_whole_list promptNew
    (mkTemplate ctxGroupList false) rfl "g" [("x", .list [.str "a", .str "b"])] "x"
    (.str "a") [.str "b"] (by simp [ctxGroupList, mkTemplate]) (by simp)
    (by simp [ctxGroupList, mkTemplate, declaredNames, declarations, entryDeclarations])
  exact ⟨p, hp, hw quiet _ rfl⟩

/-! ### Group names -/

/-- C5 (as worded) fails: with the Context `{"g": {"x": "d"}}` and a registry
that has no entry `g`, no provider is found under `g` after `BindPrompts`, in
Defaulted mode and in Interactive mode alike. -/
theorem group_name_has_no_provider :
    ((mkTemplate ctxGroup true).BindPrompts promptNew).FuncMap "g" = none ∧
    ((mkTemplate ctxGroup false).BindPrompts promptNew).FuncMap "g" = none :=
  ⟨rfl, rfl⟩

/-- C5 (amended): `BindPrompts` creates the toggle prompt of a group but does
not register it.  For every Context with distinct top-level names that
contains a group `g`, if `g` is not also a sub-key of some group, the
registry entry under `g` after `BindPrompts` is the entry that was there
before, in both modes; in particular there is none when there was none. -/
theorem group_name_entry_unchanged {μ τ : Type} (New : PromptNew τ)
    (t : dirTemplate μ τ) (g : String) (m : List (String × Value))
    (hg : (g, Value.obj m) ∈ t.Context) (hkeys : (t.Context.map Prod.fst).Nodup)
    (hsub : ∀ s m1, (s, Value.obj m1) ∈ t.Context → g ∉ m1.map Prod.fst) :
    (t.BindPrompts New).FuncMap g = t.FuncMap g := by
  rw [BindPrompts_FuncMap]
  apply setAll_of_not_mem
  rw [assignments_keys]
  exact group_name_not_declared t.Context g m hg hkeys hsub

/-- C5 witness: the group `g` of `{"g": {"x": "d"}}` in Defaulted mode. -/
theorem group_name_entry_unchanged_witness :
    ((mkTemplate ctxGroup true).BindPrompts promptNew).FuncMap "g"
      = (mkTemplate ctxGroup true).FuncMap "g" :=
  group_name_entry_unchanged promptNew (mkTemplate ctxGroup true) "g" [("x", .str "d")]
    (by simp [ctxGroup, mkTemplate]) (by simp [ctxGroup, mkTemplate])
    (by simp [ctxGroup, mkTemplate])

/-! ## Properties of `sanitizePathForWindows` -/

theorem splitOn_ne_nil (sep : Char) (cs : List Char) : splitOn sep cs ≠ [] := by
  cases cs with
  | nil => simp [splitOn]
  | cons c cs =>
    unfold splitOn
    split
    · simp
    · split <;> simp

theorem intercalate_cons_cons (sep : List Char) (x y : List Char) (rest : List (List Char)) :
    sep.intercalate (x :: y :: rest) = x ++ sep ++ sep.intercalate (y :: rest) := by
  simp [List.intercalate, List.intersperse]

theorem intercalate_splitOn (sep : Char) (cs : List Char) :
    [sep].intercalate (splitOn sep cs) = cs := by
  induction cs with
  | nil => simp [splitOn, List.intercalate]
  | cons c cs ih =>
    unfold splitOn
    split
    · rename_i hc
      cases hsp : splitOn sep cs with
      | nil => exact absurd hsp (splitOn_ne_nil sep cs)
      | cons seg segs =>
        rw [intercalate_cons_cons, ← hsp, ih, hc]
        rfl
    · cases hsp : splitOn sep cs with
      | nil => exact absurd hsp (splitOn_ne_nil sep cs)
      | cons seg segs =>
        rw [hsp] at ih
        cases segs with
        | nil =>
          simp only [List.intercalate, List.intersperse] at ih ⊢
          simpa using ih
        | cons seg2 segs2 =>
          rw [intercalate_cons_cons] at ih ⊢
          simp only [List.cons_append, List.append_assoc] at ih ⊢
          rw [ih]

theorem sep_not_mem_splitOn (sep : Char) (cs : List Char) :
    ∀ seg ∈ splitOn sep cs, sep ∉ seg := by
  induction cs with
  | nil => simp [splitOn]
  | cons c cs ih =>
    unfold splitOn
    split
    · intro seg hseg
      rcases List.mem_cons.mp hseg with h | h
      · simp [h]
      · exact ih seg h
    · rename_i hc
      cases hsp : splitOn sep cs with
      | nil => exact absurd hsp (splitOn_ne_nil sep cs)
      | cons seg0 segs =>
        rw [hsp] at ih
        intro seg hseg
        rcases List.mem_cons.mp hseg with h | h
        · subst h
          intro hmem
          rcases List.mem_cons.mp hmem with h1 | h1
          · exact hc h1.symm
          · exact ih seg0 (List.mem_cons_self _ _) h1
        · exact ih seg (List.mem_cons_of_mem _ h)

theorem replaceInvalid_get (seg : List Char) (j : Nat) (c : Char) (h : seg[j]? = some c) :
    (replaceInvalid seg)[j]? = some (if c ∈ invalidChars then '_' else c) := by
  simp [replaceInvalid, List.getElem?_map, h]

/-- C9 (as worded) fails on a Windows host: a space is replaced although it is
not in the documented set, the forward slashes of a rendered path become
backslashes, and a doubled separator is collapsed, which shortens the
result. -/
theorem sanitize_differs_from_documented_replacement :
    sanitizePathForWindows "windows" winJoin "my file.txt" = "my_file.txt" ∧
    replaceForbidden "my file.txt" = "my file.txt" ∧
    sanitizePathForWindows "windows" winJoin "src/main.go" = "src\\main.go" ∧
    replaceForbidden "src/main.go" = "src/main.go" ∧
    sanitizePathForWindows "windows" winJoin "a\\\\b" = "a\\b" ∧
    (sanitizePathForWindows "windows" winJoin "a\\\\b").length ≠ ("a\\\\b" : String).length := by
  decide

/-- C9 (amended): `sanitizePathForWindows` returns its input unchanged on
every host other than Windows.  On Windows the result is `filepath.Join`
applied to the segments of the input between backslashes (the segments,
joined by backslashes, are the input, and none contains a backslash), each
segment mapped character by character: the mapped segment has the length of
the segment, every character of the documented forbidden set
`< > : " | ? * { }` is an underscore in it, and every character outside the
set other than the space is unchanged.  What `filepath.Join` does to the
mapped segments (cleaning, forward slashes) is not constrained. -/
theorem sanitize_maps_each_segment (join : List String → String) (path : String) :
    (∀ goos, goos ≠ "windows" → sanitizePathForWindows goos join path = path) ∧
    sanitizePathForWindows "windows" join path = join (sanitizedParts "windows" path) ∧
    ['\\'].intercalate (splitOn '\\' path.data) = path.data ∧
    (∀ seg ∈ splitOn '\\' path.data, '\\' ∉ seg) ∧
    (sanitizedParts "windows" path).length = (splitOn '\\' path.data).length ∧
    (∀ (i : Nat) (seg : List Char), (splitOn '\\' path.data)[i]? = some seg →
      ∃ out : String, (sanitizedParts "windows" path)[i]? = some out ∧
        out.data.length = seg.length ∧
        ∀ (j : Nat) (c : Char), seg[j]? = some c →
          (c ∈ documentedForbidden → out.data[j]? = some '_') ∧
          (c ∉ documentedForbidden → c ≠ ' ' → out.data[j]? = some c)) := by
  have hsep : Separator "windows" = '\\' := by decide
  refine ⟨?_, ?_, intercalate_splitOn _ _, sep_not_mem_splitOn _ _, ?_, ?_⟩
  · intro goos hg
    simp [sanitizePathForWindows, hg]
  · simp [sanitizePathForWindows]
  · simp [sanitizedParts, hsep]
  · intro i seg hseg
    refine ⟨String.mk (replaceInvalid seg), ?_, ?_, ?_⟩
    · simp [sanitizedParts, hsep, List.getElem?_map, hseg]
    · simp [replaceInvalid]
    · intro j c hc
      have hget := replaceInvalid_get seg j c hc
      constructor
      · intro hdoc
        have hinv : c ∈ invalidChars := by
          simp only [documentedForbidden, List.mem_cons, List.mem_singleton] at hdoc
          simp only [invalidChars, List.mem_cons, List.mem_singleton]
          tauto
        simpa [hinv] using hget
      · intro hdoc hsp
        have hinv : c ∉ invalidChars := by
          simp only [documentedForbidden, List.mem_cons, List.mem_singleton] at hdoc
          simp only [invalidChars, List.mem_cons, List.mem_singleton]
          tauto
        simpa [hinv] using hget

/-! ## Properties of `Get` -/

/-- The error `Get` returns, when the path resolves and the existence check
succeeds, is the error of the metadata literal: the context file plays no
part in it. -/
theorem Get_error_eq_metadata_error {μ τ : Type} (env : GetEnv μ τ) (path absPath : String)
    (metadataExists : Bool) (habs : env.abs path = .ok absPath)
    (hex : env.fileExists (env.join [absPath, TemplateMetadataName]) = .ok metadataExists) :
    (Get env path).2
      = (loadMetadata env metadataExists (env.join [absPath, TemplateMetadataName])).2 := by
  simp [Get, habs, hex]

/-- The metadata path does report its decoding error: a package whose
`__metadata.json` is truncated makes `Get` return that error. -/
theorem Get_reports_metadata_error :
    (Get (packageEnv brokenMetadataPackage) "/pkg").2
      = some (.other "unexpected end of JSON input") := by
  decide

/-- C1 (what the code does): when `project.json` is present and readable but
its content is rejected by the JSON decoder, and `__metadata.json` is absent,
`Get` returns no error; it returns a template with the nil Context. -/
theorem Get_drops_context_error {μ τ : Type} (env : GetEnv μ τ) (path absPath buf : String)
    (err : Error) (habs : env.abs path = .ok absPath)
    (hread : env.readFile (env.join [absPath, ContextFileName]) = .ok buf)
    (hbad : env.decodeContext buf = .error err)
    (hmeta : env.fileExists (env.join [absPath, TemplateMetadataName]) = .ok false) :
    (loadContext env (env.join [absPath, ContextFileName])).2 = some err ∧
    (Get env path).2 = none ∧
    ∃ t, (Get env path).1 = some t ∧ t.Context = [] := by
  refine ⟨by simp [loadContext, hread, hbad], ?_, ?_⟩
  · simp [Get, habs, hmeta, loadMetadata]
  · simp [Get, habs, hmeta, loadContext, hread, hbad]

/-- C1 at the failing input: the package `/pkg` with a truncated
`project.json` and no metadata file. -/
theorem Get_drops_context_error_witness :
    (loadContext (packageEnv brokenContextPackage) "/pkg/project.json").2
      = some (.other "unexpected end of JSON input") ∧
    (Get (packageEnv brokenContextPackage) "/pkg").2 = none ∧
    ∃ t, (Get (packageEnv brokenContextPackage) "/pkg").1 = some t ∧ t.Context = [] :=
  Get_drops_context_error (packageEnv brokenContextPackage) "/pkg" "/pkg" "\x7b\"Name\": "
    (.other "unexpected end of JSON input") rfl (by rfl) (by rfl) (by rfl)

/-! ## Properties of `Execute` -/

theorem opened_put (fs : MemFS) (path : String) (n : Option Node) :
    (fs.put path n).opened = fs.opened := by
  cases n <;> rfl

theorem walk_stops {φ τ : Type} (fn : Entry → World φ τ → Outcome × World φ τ)
    (e : Entry) (rest : List Entry) (w : World φ τ) (hne : (fn e w).1 ≠ .done) :
    walk fn (e :: rest) w = fn e w := by
  cases hv : fn e w with
  | mk out w1 =>
    rw [hv] at hne
    cases out <;> simp [walk, hv] at hne ⊢

theorem walk_goes_on {φ τ : Type} (fn : Entry → World φ τ → Outcome × World φ τ)
    (e : Entry) (rest : List Entry) (w : World φ τ) (hdone : (fn e w).1 = .done) :
    walk fn (e :: rest) w = walk fn rest (fn e w).2 := by
  cases hv : fn e w with
  | mk out w1 =>
    rw [hv] at hdone
    simp only at hdone
    subst hdone
    simp [walk, hv]

theorem visit_of_name {φ κ τ : Type} (os : OS φ) (eng : Engine κ τ) (fm : FuncMap τ)
    (dirPrefix : String) (e : Entry) (fs : φ) (term : τ) (oldName : String) (fnameTmpl : κ)
    (newName : String) (term1 : τ)
    (herr : e.err = none) (hrel : e.rel = .ok oldName)
    (hname : eng.parse fm (toSlash oldName) = some (.ok fnameTmpl))
    (hnameRun : eng.execute fm fnameTmpl term = some ((newName, none), term1)) :
    visit os eng fm dirPrefix e ⟨fs, term⟩
      = if e.isDir then
          visitDir os (os.join [dirPrefix, sanitizePathForWindows os.goos os.join newName])
            ⟨fs, term1⟩
        else
          visitFile os eng fm e.filename
            (os.join [dirPrefix, sanitizePathForWindows os.goos os.join newName]) ⟨fs, term1⟩ := by
  simp only [visit, herr, hrel, hname, hnameRun]

theorem visitFile_of_remove_passes {φ κ τ : Type} (os : OS φ) (eng : Engine κ τ)
    (fm : FuncMap τ) (filename target : String) (mode : Nat) (w : World φ τ)
    (hstat : os.lstat filename w.fs = .ok mode)
    (hrm : ∀ err, (os.remove target w.fs).1 = some err → err.isNotExist = true) :
    visitFile os eng fm filename target w
      = createAndRender os eng fm filename target mode
          { w with fs := (os.remove target w.fs).2 } := by
  cases hr : (os.remove target w.fs).1 with
  | none => simp only [visitFile, hstat, hr]
  | some err => simp [visitFile, hstat, hr, hrm err hr]

theorem createAndRender_of_open {φ κ τ : Type} (os : OS φ) (eng : Engine κ τ) (fm : FuncMap τ)
    (filename target : String) (mode : Nat) (w : World φ τ)
    (hopen : (os.openFile target mode w.fs).1 = none) :
    createAndRender os eng fm filename target mode w
      = ((renderContents os eng fm filename target
            { w with fs := (os.openFile target mode w.fs).2 }).1,
         { (renderContents os eng fm filename target
              { w with fs := (os.openFile target mode w.fs).2 }).2 with
           fs := os.close target (prune os target
             (renderContents os eng fm filename target
               { w with fs := (os.openFile target mode w.fs).2 }).2.fs) }) := by
  simp only [createAndRender, hopen]

theorem renderContents_of_run {φ κ τ : Type} (os : OS φ) (eng : Engine κ τ) (fm : FuncMap τ)
    (filename target : String) (w : World φ τ) (text : String) (contentsTmpl : κ)
    (r : String) (oerr : Option Error) (term2 : τ)
    (hread : os.readFile filename w.fs = .ok text)
    (hparse : eng.parse fm text = some (.ok contentsTmpl))
    (hrun : eng.execute fm contentsTmpl w.term = some ((r, oerr), term2)) :
    renderContents os eng fm filename target w = writeRendered os target r oerr w.fs term2 := by
  simp only [renderContents, hread, hparse, hrun]

theorem checkCalls_never_accepts_undefined {τ : Type} (names : List String)
    (fm : FuncMap τ) (ps : List Piece) (name : String)
    (href : Piece.call name ∈ ps) (hundef : fm name = none) :
    checkCalls names fm ps ≠ some (.ok ()) := by
  induction ps with
  | nil => simp at href
  | cons p rest ih =>
    cases p with
    | text s =>
      have hrest : Piece.call name ∈ rest := by simpa using href
      simpa [checkCalls] using ih hrest
    | call n =>
      by_cases hn : n = name
      · subst hn
        unfold checkCalls
        split
        · split
          · simp
          · split <;> simp [hundef]
        · simp
      · have hrest : Piece.call name ∈ rest := by
          rcases List.mem_cons.mp href with hh | hh
          · exact absurd (Piece.call.inj hh).symm hn
          · exact hh
        unfold checkCalls
        split
        · split
          · simp
          · split
            · split
              · exact ih hrest
              · simp
            · split <;> simp
        · simp

/-- The engine of the sample trees never accepts a template with an action
that calls a name without provider: it rejects it, or has no answer. -/
theorem parseSample_never_accepts_undefined {τ : Type} (names : List String)
    (fm : FuncMap τ) (text : String) (ps : List Piece) (name : String)
    (hscan : scan false [] text.data = some ps)
    (href : Piece.call name ∈ ps) (hundef : fm name = none) (k : List Piece) :
    parseSample names fm text ≠ some (.ok k) := by
  have hcalls := checkCalls_never_accepts_undefined names fm ps name href hundef
  unfold parseSample
  split
  · simp
  · simp
  · simp only [hscan]
    split
    · simp
    · simp
    · rename_i u hu
      cases u
      exact absurd hu hcalls

/-- When the destination file cannot be created, the content template is
never parsed: without the destination root, `Execute` returns the error of
`os.OpenFile` for the same tree. -/
theorem execute_returns_open_error_before_parsing :
    ((mkTemplate [] true).Execute promptNew unixOS (sampleEngine [])
        [missingFile] "out" ⟨noRootTree, quiet⟩).1 = .failed .notExist := by
  decide

/-- C8 (as worded) fails for the pruning step.  On a host where reading back
`out/blank.txt` fails, `Execute` returns nil, leaves the whitespace-only file
in place and goes on to write `out/c.txt`; on a host where removing an
existing file fails, the failed removal of the pruning step is not returned
either. -/
theorem pruning_failures_are_not_returned :
    (∀ fs, unreadableOutOS.readFile "out/blank.txt" fs = .error (.other "permission denied")) ∧
    ((mkTemplate [] true).Execute promptNew unreadableOutOS (sampleEngine [])
        blankEntries "out" ⟨blankTree, quiet⟩).1 = .done ∧
    ((mkTemplate [] true).Execute promptNew unreadableOutOS (sampleEngine [])
        blankEntries "out" ⟨blankTree, quiet⟩).2.fs.node "out/blank.txt"
      = some (.file 0o644 " ") ∧
    ((mkTemplate [] true).Execute promptNew unreadableOutOS (sampleEngine [])
        blankEntries "out" ⟨blankTree, quiet⟩).2.fs.node "out/c.txt"
      = some (.file 0o644 "c") ∧
    ((mkTemplate [] true).Execute promptNew stickyOS (sampleEngine [])
        blankEntries "out" ⟨blankTree, quiet⟩).1 = .done ∧
    ((mkTemplate [] true).Execute promptNew stickyOS (sampleEngine [])
        blankEntries "out" ⟨blankTree, quiet⟩).2.fs.node "out/blank.txt"
      = some (.file 0o644 " ") := by
  refine ⟨fun fs => rfl, ?_, ?_, ?_, ?_, ?_⟩ <;> decide

/-- C8 (amended): for every template, host, engine and state.  `Execute`
stops at the first entry for which the walk function does not return nil,
with that result, and goes on to the next entry otherwise.  The walk
function returns the error `filepath.Walk` passes in.  For a directory it
returns the error of `os.Mkdir` unless that is "already exists", which counts
as success.  For a file it returns the error of `os.Lstat`; the error of the
`os.Remove` before creation unless that is "does not exist"; then, whether
the removal succeeded or found nothing, the error of `os.OpenFile`, and the
error of a failed write; otherwise its result is the result of the
rendering.  The deferred pruning never changes the result: when the re-read
fails the file system is left as it is, and the result of the removal of a
whitespace-only file is not looked at.  In the memory file system a
directory entry whose destination is already a directory returns nil and
changes nothing. -/
theorem execute_error_propagation {μ φ κ τ : Type} (New : PromptNew τ) (os : OS φ)
    (eng : Engine κ τ) (t : dirTemplate μ τ) (dirPrefix : String) (w : World φ τ) :
    (∀ e rest, (visit os eng (t.BindPrompts New).FuncMap dirPrefix e w).1 ≠ .done →
      t.Execute New os eng (e :: rest) dirPrefix w
        = visit os eng (t.BindPrompts New).FuncMap dirPrefix e w) ∧
    (∀ e rest, (visit os eng (t.BindPrompts New).FuncMap dirPrefix e w).1 = .done →
      t.Execute New os eng (e :: rest) dirPrefix w
        = t.Execute New os eng rest dirPrefix
            (visit os eng (t.BindPrompts New).FuncMap dirPrefix e w).2) ∧
    (∀ e err, e.err = some err →
      visit os eng (t.BindPrompts New).FuncMap dirPrefix e w = (.failed err, w)) ∧
    (∀ e oldName fnameTmpl newName term1, e.err = none → e.rel = .ok oldName →
      eng.parse (t.BindPrompts New).FuncMap (toSlash oldName) = some (.ok fnameTmpl) →
      eng.execute (t.BindPrompts New).FuncMap fnameTmpl w.term
        = some ((newName, none), term1) →
      visit os eng (t.BindPrompts New).FuncMap dirPrefix e w
        = if e.isDir then
            visitDir os (os.join [dirPrefix, sanitizePathForWindows os.goos os.join newName])
              ⟨w.fs, term1⟩
          else
            visitFile os eng (t.BindPrompts New).FuncMap e.filename
              (os.join [dirPrefix, sanitizePathForWindows os.goos os.join newName])
              ⟨w.fs, term1⟩) ∧
    (∀ target err, (os.mkdir target 0o755 w.fs).1 = some err →
      (visitDir os target w).1 = if err.isExist then .done else .failed err) ∧
    (∀ target, (os.mkdir target 0o755 w.fs).1 = none → (visitDir os target w).1 = .done) ∧
    (∀ fm filename target err, os.lstat filename w.fs = .error err →
      visitFile os eng fm filename target w = (.failed err, w)) ∧
    (∀ fm filename target mode err, os.lstat filename w.fs = .ok mode →
      (os.remove target w.fs).1 = some err → err.isNotExist = false →
      (visitFile os eng fm filename target w).1 = .failed err) ∧
    (∀ fm filename target mode, os.lstat filename w.fs = .ok mode →
      (∀ err, (os.remove target w.fs).1 = some err → err.isNotExist = true) →
      visitFile os eng fm filename target w
        = createAndRender os eng fm filename target mode
            { w with fs := (os.remove target w.fs).2 }) ∧
    (∀ fm filename target mode err, (os.openFile target mode w.fs).1 = some err →
      (createAndRender os eng fm filename target mode w).1 = .failed err) ∧
    (∀ fm filename target mode, (os.openFile target mode w.fs).1 = none →
      (createAndRender os eng fm filename target mode w).1
        = (renderContents os eng fm filename target
            { w with fs := (os.openFile target mode w.fs).2 }).1) ∧
    (∀ fm filename target text contentsTmpl out oerr term2,
      os.readFile filename w.fs = .ok text →
      eng.parse fm text = some (.ok contentsTmpl) →
      eng.execute fm contentsTmpl w.term = some ((out, oerr), term2) →
      renderContents os eng fm filename target w
        = writeRendered os target out oerr w.fs term2) ∧
    (∀ target out oerr (term2 : τ) err, out ≠ "" →
      (os.write target out w.fs).1 = some err →
      (writeRendered os target out oerr w.fs term2).1 = .failed err) ∧
    (∀ target out (term2 : τ) err, (out = "" ∨ (os.write target out w.fs).1 = none) →
      (writeRendered os target out (some err) w.fs term2).1 = .failed err) ∧
    (∀ target out (term2 : τ), (out = "" ∨ (os.write target out w.fs).1 = none) →
      (writeRendered os target out none w.fs term2).1 = .done) ∧
    (∀ fm filename target mode err1, os.lstat filename w.fs = .ok mode →
      (∀ err, (os.remove target w.fs).1 = some err → err.isNotExist = true) →
      (os.openFile target mode (os.remove target w.fs).2).1 = some err1 →
      (visitFile os eng fm filename target w).1 = .failed err1) ∧
    (∀ fm filename target mode text contentsTmpl out oerr term2 err1,
      os.lstat filename w.fs = .ok mode →
      (∀ err, (os.remove target w.fs).1 = some err → err.isNotExist = true) →
      (os.openFile target mode (os.remove target w.fs).2).1 = none →
      os.readFile filename (os.openFile target mode (os.remove target w.fs).2).2 = .ok text →
      eng.parse fm text = some (.ok contentsTmpl) →
      eng.execute fm contentsTmpl w.term = some ((out, oerr), term2) →
      out ≠ "" →
      (os.write target out (os.openFile target mode (os.remove target w.fs).2).2).1
        = some err1 →
      (visitFile os eng fm filename target w).1 = .failed err1) ∧
    (∀ fname, (∀ err, os.readFile fname w.fs = .error err → prune os fname w.fs = w.fs) ∧
      (∀ contents, os.readFile fname w.fs = .ok contents →
        prune os fname w.fs
          = if isOnlyWhitespace contents then (os.remove fname w.fs).2 else w.fs)) ∧
    (∀ (h : Host) target (fs : MemFS) mode, fs.node target = some (.dir mode) →
      visitDir (memOS h) target (⟨fs, w.term⟩ : World MemFS τ) = (.done, ⟨fs, w.term⟩)) := by
  refine ⟨?_, ?_, ?_, ?_, ?_, ?_, ?_, ?_, ?_, ?_, ?_, ?_, ?_, ?_, ?_, ?_, ?_, ?_, ?_⟩
  · intro e rest hne
    exact walk_stops _ e rest w hne
  · intro e rest hdone
    exact walk_goes_on _ e rest w hdone
  · intro e err herr
    simp only [visit, herr]
  · intro e oldName fnameTmpl newName term1 herr hrel hname hrun
    exact visit_of_name os eng _ dirPrefix e w.fs w.term oldName fnameTmpl newName term1
      herr hrel hname hrun
  · intro target err hmk
    by_cases hex : err.isExist = true <;> simp [visitDir, hmk, hex]
  · intro target hmk
    simp [visitDir, hmk]
  · intro fm filename target err hstat
    simp only [visitFile, hstat]
  · intro fm filename target mode err hstat hrm hne
    simp [visitFile, hstat, hrm, hne]
  · intro fm filename target mode hstat hrm
    exact visitFile_of_remove_passes os eng fm filename target mode w hstat hrm
  · intro fm filename target mode err hopen
    simp [createAndRender, hopen]
  · intro fm filename target mode hopen
    simp [createAndRender, hopen]
  · intro fm filename target text contentsTmpl out oerr term2 hread hparse hrun
    exact renderContents_of_run os eng fm filename target w text contentsTmpl out oerr term2
      hread hparse hrun
  · intro target out oerr term2 err hout hwrite
    simp [writeRendered, hout, hwrite]
  · intro target out term2 err hpass
    rcases hpass with hout | hwrite
    · simp [writeRendered, hout]
    · by_cases hout : out = "" <;> simp [writeRendered, hout, hwrite]
  · intro target out term2 hpass
    rcases hpass with hout | hwrite
    · simp [writeRendered, hout]
    · by_cases hout : out = "" <;> simp [writeRendered, hout, hwrite]
  · intro fm filename target mode err1 hstat hrm hopen
    rw [visitFile_of_remove_passes os eng fm filename target mode w hstat hrm]
    simp [createAndRender, hopen]
  · intro fm filename target mode text contentsTmpl out oerr term2 err1 hstat hrm hopen hread
      hparse hrun hout hwrite
    rw [visitFile_of_remove_passes os eng fm filename target mode w hstat hrm,
      createAndRender_of_open os eng fm filename target mode _ hopen]
    simp only
    rw [renderContents_of_run os eng fm filename target
      ⟨(os.openFile target mode (os.remove target w.fs).2).2, w.term⟩ text contentsTmpl out
      oerr term2 hread hparse hrun]
    simp [writeRendered, hout, hwrite]
  · intro fname
    constructor
    · intro err hread
      simp only [prune, hread]
    · intro contents hread
      simp only [prune, hread]
  · intro h target fs mode hdir
    simp [visitDir, memOS, hdir, Error.isExist]

/-- C8 witness: on the Unix host, creating the destination root `out`, which
exists, is not an error; overwriting `out/a.txt` goes through the creation of
the file; and running `Execute` a second time on the result of a first run
returns nil again. -/
theorem execute_error_propagation_witness :
    (visitDir unixOS "out" (⟨helloTree, quiet⟩ : World MemFS Terminal)).1 = .done ∧
    visitFile unixOS (sampleEngine []) (FuncMap.empty : FuncMap Terminal)
        "pkg/template/a.txt" "out/a.txt" ⟨missingTree, quiet⟩
      = createAndRender unixOS (sampleEngine []) (FuncMap.empty : FuncMap Terminal)
          "pkg/template/a.txt" "out/a.txt" 0o644
          ⟨(unixOS.remove "out/a.txt" missingTree).2, quiet⟩ ∧
    ((mkTemplate ctxHello true).Execute promptNew unixOS (sampleEngine ["name"])
        helloEntries "out"
        ((mkTemplate ctxHello true).Execute promptNew unixOS (sampleEngine ["name"])
          helloEntries "out" ⟨helloTree, quiet⟩).2).1 = .done :=
  ⟨(execute_error_propagation promptNew unixOS (sampleEngine [])
      (mkTemplate [] true) "out" ⟨helloTree, quiet⟩).2.2.2.2.1 "out" .exist (by decide),
   (execute_error_propagation promptNew unixOS (sampleEngine [])
      (mkTemplate [] true) "out" ⟨missingTree, quiet⟩).2.2.2.2.2.2.2.2.1
      FuncMap.empty "pkg/template/a.txt" "out/a.txt" 0o644 (by rfl) (by decide),
   by decide⟩

/-- The scenario of the specification: the tree `template/{{name}}.txt` with
body `Hello, {{name}}!`, the Context `{"name": "World"}` and Defaulted mode
give one file `out/World.txt` with body `Hello, World!`, and no prompt is
displayed. -/
theorem scenario_hello_world :
    ((mkTemplate ctxHello true).Execute promptNew unixOS (sampleEngine ["name"])
        helloEntries "out" ⟨helloTree, quiet⟩).1 = .done ∧
    ((mkTemplate ctxHello true).Execute promptNew unixOS (sampleEngine ["name"])
        helloEntries "out" ⟨helloTree, quiet⟩).2.fs.node "out/World.txt"
      = some (.file 0o644 "Hello, World!") ∧
    ((mkTemplate ctxHello true).Execute promptNew unixOS (sampleEngine ["name"])
        helloEntries "out" ⟨helloTree, quiet⟩).2.term.shown = [] := by
  decide

end Boilr
